import Mathlib

/-!
Formal model of `main.py` from the content-import backend: the HTML
extraction heuristic `extract_text_and_sections`, a lenient HTML document
tree standing in for the one produced by `BeautifulSoup(html, "html.parser")`,
and the thin HTTP/API layer (`import_content`, `get_latest_content`).
-/

/-! ## Python string primitives -/

/-- Whitespace characters recognised by Python's `str.strip()` (ASCII range;
the extraction code only ever strips ASCII whitespace in practice). -/
def isPySpace (c : Char) : Bool :=
  c == ' ' || c == '\t' || c == '\n' || c == '\r' || c == '\x0b' || c == '\x0c'

/-- Python `str.strip()`. -/
def pyStrip (s : String) : String :=
  String.mk (((s.data.dropWhile isPySpace).reverse.dropWhile isPySpace).reverse)

/-- Python `str.lower()` on one character, restricted to ASCII and Russian
Cyrillic letters — the alphabets occurring in `main.py`'s keyword lists. -/
def lowerChar (c : Char) : Char :=
  if 'A' ≤ c && c ≤ 'Z' then Char.ofNat (c.toNat + 32)
  else if 0x410 ≤ c.toNat && c.toNat ≤ 0x42F then Char.ofNat (c.toNat + 0x20)
  else if c.toNat == 0x401 then Char.ofNat 0x451
  else c

/-- Python `str.lower()`. -/
def pyLower (s : String) : String := String.mk (s.data.map lowerChar)

/-- Does the first list occur at the head of the second one? -/
def startsWithL : List Char → List Char → Bool
  | [], _ => true
  | _ :: _, [] => false
  | a :: as, b :: bs => a == b && startsWithL as bs

/-- Substring occurrence on character lists. -/
def hasSubL (needle : List Char) : List Char → Bool
  | [] => needle.isEmpty
  | c :: rest => startsWithL needle (c :: rest) || hasSubL needle rest

/-- Python's `needle in hay` on strings. -/
def hasSub (needle hay : String) : Bool := hasSubL needle.data hay.data

/-- `any(k in s for k in kws)`. -/
def kwAny (kws : List String) (s : String) : Bool := kws.any fun k => hasSub k s

/-- Python `sep.join(parts)`. -/
def sepJoin (sep : String) : List String → String
  | [] => ""
  | [x] => x
  | x :: y :: rest => x ++ sep ++ sepJoin sep (y :: rest)

/-! ## The document tree

`BeautifulSoup` parses HTML into a tree of tags and text nodes.  We model the
tree directly; `NodeL` is the (mutually inductive) list of children, which
keeps all tree recursions structural and hence kernel-reducible. -/

mutual
/-- A node of the parsed document: a text node or an element with a tag name,
attributes (values of valueless attributes are `""`, as in the
`html.parser` tree builder) and children. -/
inductive Node where
  | text (s : String) : Node
  | elem (tag : String) (attrs : List (String × String)) (children : NodeL) : Node

/-- A list of sibling nodes. -/
inductive NodeL where
  | nil : NodeL
  | cons (hd : Node) (tl : NodeL) : NodeL
end

def NodeL.toList : NodeL → List Node
  | .nil => []
  | .cons n rest => n :: rest.toList

def NodeL.ofList : List Node → NodeL
  | [] => .nil
  | n :: rest => .cons n (NodeL.ofList rest)

/-- `tag.get(name)`: attribute lookup (the tree builder keeps one entry per
attribute name, so first-match lookup is dictionary lookup). -/
def attrsGet (attrs : List (String × String)) (name : String) : Option String :=
  match attrs.find? (fun kv => kv.1 == name) with
  | some kv => some kv.2
  | none => none

def Node.tagOf : Node → Option String
  | .text _ => none
  | .elem t _ _ => some t

def Node.isElem : Node → Bool
  | .text _ => false
  | .elem _ _ _ => true

def isTag (t : String) (n : Node) : Bool :=
  match n with
  | .text _ => false
  | .elem tg _ _ => tg == t

def isTagAmong (ts : List String) (n : Node) : Bool :=
  match n with
  | .text _ => false
  | .elem tg _ _ => ts.contains tg

mutual
/-- All text fragments below a node, in document order
(`Tag.strings` in BeautifulSoup). -/
def nodeStrings : Node → List String
  | .text s => [s]
  | .elem _ _ cs => forestStrings cs

/-- All text fragments below a forest of nodes, in document order. -/
def forestStrings : NodeL → List String
  | .nil => []
  | .cons n rest => nodeStrings n ++ forestStrings rest
end

/-- With `strip=True`, `get_text` strips every fragment and drops the ones
that become empty. -/
def cleanFrags (l : List String) : List String :=
  (l.map pyStrip).filter fun s => s ≠ ""

/-- `tag.get_text(sep, strip=True)`. -/
def getTextN (sep : String) (n : Node) : String := sepJoin sep (cleanFrags (nodeStrings n))

/-- `soup.get_text(sep, strip=True)` over a forest. -/
def getTextF (sep : String) (l : NodeL) : String := sepJoin sep (cleanFrags (forestStrings l))

/-- Is this an element removed by the `for tag in soup(["script", "style",
"noscript"]): tag.extract()` loop of `extract_text_and_sections`? -/
def nodeIsStripped (n : Node) : Bool :=
  match n with
  | .text _ => false
  | .elem t _ _ => t == "script" || t == "style" || t == "noscript"

mutual
/-- Strip `script`/`style`/`noscript` elements below a (kept) node. -/
def stripNodeKeep : Node → Node
  | .text s => .text s
  | .elem t a cs => .elem t a (stripForest cs)

/-- Remove every `script`, `style` and `noscript` element (with its whole
subtree) from a forest. -/
def stripForest : NodeL → NodeL
  | .nil => .nil
  | .cons n rest =>
    if nodeIsStripped n then stripForest rest
    else .cons (stripNodeKeep n) (stripForest rest)
end

mutual
/-- `soup.select('nav a[href]')` below one node: `a` elements carrying an
`href` attribute whose ancestors include a `nav`, in document order.
`inNav` records whether an ancestor is a `nav`. -/
def navANode : Bool → Node → List Node
  | _, .text _ => []
  | inNav, .elem t a cs =>
    (if t == "a" && inNav && (attrsGet a "href").isSome then [Node.elem t a cs] else [])
      ++ navAForest (inNav || t == "nav") cs

/-- `soup.select('nav a[href]')` below a forest. -/
def navAForest : Bool → NodeL → List Node
  | _, .nil => []
  | inNav, .cons n rest => navANode inNav n ++ navAForest inNav rest
end

mutual
/-- `find` below one node: first node satisfying `p` in document order,
returned together with the list of its following siblings. -/
def findNodeF (p : Node → Bool) : Node → Option (Node × NodeL)
  | .text _ => none
  | .elem _ _ cs => findForestF p cs

/-- `find` over a forest, with following siblings. -/
def findForestF (p : Node → Bool) : NodeL → Option (Node × NodeL)
  | .nil => none
  | .cons n rest =>
    if p n then some (n, rest)
    else
      match findNodeF p n with
      | some r => some r
      | none => findForestF p rest
end

mutual
/-- `find_all` below one node: every node satisfying `p` in document order,
each with the list of its following siblings. -/
def allNodeF (p : Node → Bool) : Node → List (Node × NodeL)
  | .text _ => []
  | .elem _ _ cs => allForestF p cs

/-- `find_all` over a forest, with following siblings. -/
def allForestF (p : Node → Bool) : NodeL → List (Node × NodeL)
  | .nil => []
  | .cons n rest =>
    (if p n then [(n, rest)] else []) ++ allNodeF p n ++ allForestF p rest
end

mutual
/-- `soup.find_all(text=True)` below one element, pairing every text node
with its parent element's `get_text(" ", strip=True)`. -/
def nodeTextEntries : Node → List (String × String)
  | .text _ => []
  | .elem _ _ cs => forestTextEntries (getTextF " " cs) cs

/-- Text nodes of a forest paired with their parent's text; `ptext` is the
parent text for the direct text children of the forest. -/
def forestTextEntries : String → NodeL → List (String × String)
  | _, .nil => []
  | ptext, .cons n rest =>
    (match n with
     | .text s => [(s, ptext)]
     | .elem _ _ _ => nodeTextEntries n) ++ forestTextEntries ptext rest
end

/-- `soup.find_all(text=True)` over the whole document, each text node paired
with its parent's `get_text(" ", strip=True)` (the parent of a top-level text
node is the soup object itself). -/
def topTextEntries (doc : NodeL) : List (String × String) :=
  forestTextEntries (getTextF " " doc) doc

/-- `tag.find_next_siblings(limit=k)`: the next `k` sibling elements (a
filterless `find_all` matches only tags, never strings). -/
def nextSiblings (k : Nat) (sibs : NodeL) : List Node :=
  (sibs.toList.filter Node.isElem).take k

/-! ## The extraction heuristic (`extract_text_and_sections` in `main.py`)

Each section heuristic is transcribed as its own definition;
`extract_text_and_sections` composes them exactly as the Python function
does, after stripping `script`/`style`/`noscript`. -/

/-- One entry of the `navigation` output: `{"label": text, "href": href}`. -/
structure NavItem where
  label : String
  href : Option String
deriving DecidableEq, Repr

/-- The value returned by `extract_text_and_sections`: `raw_text`, the
`sections` dict (an insertion-ordered key/value list) and `navigation`. -/
structure ExtractionResult where
  raw_text : String
  sections : List (String × List String)
  navigation : List NavItem
deriving DecidableEq, Repr

/-- The `nav_items` loop: over `soup.select('nav a[href]')`, keep anchors with
non-empty `get_text(strip=True)` and emit `{"label": text, "href": a.get('href')}`. -/
def navigationOf (soup : NodeL) : List NavItem :=
  (navAForest false soup).filterMap fun a =>
    let text := getTextN "" a
    if text ≠ "" then
      some { label := text,
             href := match a with
                     | .text _ => none
                     | .elem _ attrs _ => attrsGet attrs "href" }
    else none

/-- The hero block: `soup.find('h1')`; if found, its
`get_text(" ", strip=True)` followed by the non-empty texts of
`h1.find_next_siblings(limit=3)`. -/
def heroOf (soup : NodeL) : Option (List String) :=
  (findForestF (isTag "h1") soup).map fun fs =>
    getTextN " " fs.1 ::
      (nextSiblings 3 fs.2).filterMap fun node =>
        let t := getTextN " " node
        if t ≠ "" then some t else none

/-- The text block built for a matched heading: heading text, then the
non-empty texts of its next `k` sibling elements, joined with `"\n"`. -/
def headingBlock (title : String) (k : Nat) (sibs : NodeL) : String :=
  sepJoin "\n" (title ::
    (nextSiblings k sibs).filterMap fun sib =>
      let t := getTextN " " sib
      if t ≠ "" then some t else none)

/-- The `services_blocks` loop: every `h2`/`h3` whose lowered text contains a
service keyword contributes a block of the heading plus up to 6 siblings. -/
def servicesOf (soup : NodeL) : List String :=
  (allForestF (isTagAmong ["h2", "h3"]) soup).filterMap fun hs =>
    let title := getTextN " " hs.1
    if kwAny ["service", "услуги", "сервисы"] (pyLower title) then
      some (headingBlock title 6 hs.2)
    else none

/-- One step of the `testimonials` loop over `soup.find_all(text=True)`:
when the stripped, lowered text node matches a testimonial keyword and the
parent block is non-empty and not yet collected, append the parent block. -/
def testimonialStep (acc : List String) (e : String × String) : List String :=
  let low := pyLower (pyStrip e.1)
  if low ≠ "" ∧ kwAny ["отзывы", "testimonial", "feedback", "клиенты о нас"] low then
    if e.2 ≠ "" ∧ e.2 ∉ acc then acc ++ [e.2] else acc
  else acc

/-- The `testimonials` list before the `[:10]` cap. -/
def testimonialsRaw (soup : NodeL) : List String :=
  (topTextEntries soup).foldl testimonialStep []

/-- The `contact_texts ++ contact_headings` list: non-empty `form` texts,
then blocks from `h2`/`h3`/`h4` headings matching a contact keyword. -/
def contactOf (soup : NodeL) : List String :=
  ((allForestF (isTag "form") soup).filterMap fun fs =>
    let t := getTextN " " fs.1
    if t ≠ "" then some t else none)
  ++ ((allForestF (isTagAmong ["h2", "h3", "h4"]) soup).filterMap fun hs =>
    let title := getTextN " " hs.1
    if kwAny ["контакт", "contact", "связаться", "заявка"] (pyLower title) then
      some (headingBlock title 6 hs.2)
    else none)

/-- `(soup.find('body') or soup).get_text("\n", strip=True)`; a found tag is
always truthy in BeautifulSoup, so `or soup` only fires when no `body` exists. -/
def rawTextOf (soup : NodeL) : String :=
  match findForestF (isTag "body") soup with
  | some bs => getTextN "\n" bs.1
  | none => getTextF "\n" soup

/-- The `sections` dict assembled in the insertion order of `main.py`:
`hero`, `services`, `testimonials` (capped at 10), `contact` — each key
present only when its heuristic produced something. -/
def sectionsOf (soup : NodeL) : List (String × List String) :=
  (match heroOf soup with
   | some hero => [("hero", hero)]
   | none => [])
  ++ (if servicesOf soup ≠ [] then [("services", servicesOf soup)] else [])
  ++ (if testimonialsRaw soup ≠ [] then [("testimonials", (testimonialsRaw soup).take 10)] else [])
  ++ (if contactOf soup ≠ [] then [("contact", contactOf soup)] else [])

/-- `extract_text_and_sections(html)` on an already-parsed document tree:
strip `script`/`style`/`noscript`, then collect navigation, the heuristic
sections and the raw text dump. -/
def extract_text_and_sections (doc : NodeL) : ExtractionResult :=
  let soup := stripForest doc
  { raw_text := rawTextOf soup
    sections := sectionsOf soup
    navigation := navigationOf soup }

/-! ## A lenient HTML parser

`main.py` delegates parsing to `BeautifulSoup(html, 'html.parser')`, an
external library.  The parser below reproduces its behaviour on ordinary
and on malformed markup: it never fails, tolerates unclosed tags and
unmatched closing tags, lowercases tag and attribute names, gives valueless
attributes the value `""`, treats `script`/`style` content as raw text, and
drops comments, doctypes and processing instructions.  Character-level
entity decoding is not modelled (no claim depends on it).  The tokenizer
runs on fuel bounded by the input length so that every definition stays
structurally recursive and kernel-reducible. -/

inductive Tok where
  | textT (s : String) : Tok
  | openT (name : String) (attrs : List (String × String)) (selfClose : Bool) : Tok
  | closeT (name : String) : Tok
deriving DecidableEq, Repr

def isAsciiAlpha (c : Char) : Bool :=
  ('a' ≤ c && c ≤ 'z') || ('A' ≤ c && c ≤ 'Z')

/-- Characters allowed inside a tag name after its leading letter. -/
def isNameChar (c : Char) : Bool :=
  !(isPySpace c) && c ≠ '/' && c ≠ '>' && c ≠ '='

def isAttrNameChar (c : Char) : Bool :=
  !(isPySpace c) && c ≠ '/' && c ≠ '>' && c ≠ '='

def isUnquotedValChar (c : Char) : Bool :=
  !(isPySpace c) && c ≠ '>'

def takeWhileL (p : Char → Bool) : List Char → List Char × List Char
  | [] => ([], [])
  | c :: rest =>
    if p c then
      let r := takeWhileL p rest
      (c :: r.1, r.2)
    else ([], c :: rest)

def dropWhileL (p : Char → Bool) : List Char → List Char
  | [] => []
  | c :: rest => if p c then dropWhileL p rest else c :: rest

/-- Drop up to and including the next `>` (to the end when there is none). -/
def dropToGt : List Char → List Char
  | [] => []
  | '>' :: rest => rest
  | _ :: rest => dropToGt rest

/-- Drop up to and including the next `-->` (comment end). -/
def dropComment : List Char → List Char
  | '-' :: '-' :: '>' :: rest => rest
  | _ :: rest => dropComment rest
  | [] => []

def lowerStr (l : List Char) : String := String.mk (l.map lowerChar)

/-- Replace-or-append insertion, mirroring `attr_dict[name] = value`. -/
def attrInsert (name value : String) : List (String × String) → List (String × String)
  | [] => [(name, value)]
  | kv :: rest =>
    if kv.1 == name then (name, value) :: rest
    else kv :: attrInsert name value rest

/-- Read the attribute part of a start tag, up to `>` or `/>`.  Returns the
attributes, the self-closing flag, and the rest of the input. -/
def readAttrs : Nat → List Char → List (String × String) →
    List (String × String) × Bool × List Char
  | 0, cs, acc => (acc, false, cs)
  | fuel + 1, cs, acc =>
    match dropWhileL isPySpace cs with
    | [] => (acc, false, [])
    | '>' :: rest => (acc, false, rest)
    | '/' :: '>' :: rest => (acc, true, rest)
    | '/' :: rest => readAttrs fuel rest acc
    | c :: rest =>
      let nm := takeWhileL isAttrNameChar (c :: rest)
      if nm.1.isEmpty then readAttrs fuel rest acc
      else
        let name := lowerStr nm.1
        match dropWhileL isPySpace nm.2 with
        | '=' :: afterEq =>
          match dropWhileL isPySpace afterEq with
          | '"' :: vs =>
            let v := takeWhileL (fun ch => ch ≠ '"') vs
            readAttrs fuel (v.2.drop 1) (attrInsert name (String.mk v.1) acc)
          | '\'' :: vs =>
            let v := takeWhileL (fun ch => ch ≠ '\'') vs
            readAttrs fuel (v.2.drop 1) (attrInsert name (String.mk v.1) acc)
          | other =>
            let v := takeWhileL isUnquotedValChar other
            readAttrs fuel v.2 (attrInsert name (String.mk v.1) acc)
        | other => readAttrs fuel other (attrInsert name "" acc)

/-- Scan raw `script`/`style` content up to the case-insensitive closing tag.
Returns the raw content and the input after the closing tag's `>`. -/
def rawScan (closing : List Char) : Nat → List Char → List Char → String × List Char
  | 0, cs, acc => (String.mk acc.reverse, cs)
  | _ + 1, [], acc => (String.mk acc.reverse, [])
  | fuel + 1, c :: rest, acc =>
    if startsWithL (closing.map lowerChar) ((c :: rest).take closing.length |>.map lowerChar) then
      (String.mk acc.reverse, dropToGt ((c :: rest).drop closing.length))
    else rawScan closing fuel rest (c :: acc)

def flushText (acc : List Char) : List Tok :=
  if acc.isEmpty then [] else [.textT (String.mk acc.reverse)]

/-- The tokenizer.  `acc` accumulates pending character data (reversed);
adjacent character data becomes a single text node. -/
def lexAux : Nat → List Char → List Char → List Tok
  | 0, cs, acc => flushText (cs.reverse ++ acc)
  | _ + 1, [], acc => flushText acc
  | fuel + 1, '<' :: rest, acc =>
    match rest with
    | '/' :: c :: cs2 =>
      if isAsciiAlpha c then
        let nm := takeWhileL isNameChar (c :: cs2)
        flushText acc ++ (Tok.closeT (lowerStr nm.1) :: lexAux fuel (dropToGt nm.2) [])
      else lexAux fuel rest ('<' :: acc)
    | '!' :: '-' :: '-' :: cs2 => flushText acc ++ lexAux fuel (dropComment cs2) []
    | '!' :: cs2 => flushText acc ++ lexAux fuel (dropToGt cs2) []
    | '?' :: cs2 => flushText acc ++ lexAux fuel (dropToGt cs2) []
    | c :: cs2 =>
      if isAsciiAlpha c then
        let nm := takeWhileL isNameChar (c :: cs2)
        let name := lowerStr nm.1
        let ar := readAttrs (nm.2.length + 1) nm.2 []
        if !ar.2.1 && (name == "script" || name == "style") then
          let rw := rawScan ('<' :: '/' :: name.data) (ar.2.2.length + 1) ar.2.2 []
          flushText acc ++
            (Tok.openT name ar.1 false ::
              (if rw.1 ≠ "" then [Tok.textT rw.1] else []) ++
              (Tok.closeT name :: lexAux fuel rw.2 []))
        else flushText acc ++ (Tok.openT name ar.1 ar.2.1 :: lexAux fuel ar.2.2 [])
      else lexAux fuel rest ('<' :: acc)
    | [] => flushText ('<' :: acc)
  | fuel + 1, c :: cs, acc => lexAux fuel cs (c :: acc)

def lexHTML (s : String) : List Tok := lexAux (s.length + 1) s.data []

/-- HTML void elements (the `html.parser` tree builder's empty-element tags):
their start tags never take children. -/
def isVoidTag (t : String) : Bool :=
  ["area", "base", "br", "col", "embed", "hr", "img", "input", "keygen",
   "link", "menuitem", "meta", "param", "source", "track", "wbr",
   "basefont", "bgsound", "command", "frame", "image", "isindex", "nextid",
   "spacer"].contains t

/-- An open element still waiting for its closing tag: name, attributes and
the children collected so far (reversed). -/
structure Frame where
  name : String
  attrs : List (String × String)
  childrenRev : List Node
deriving Inhabited

def closeFrame (f : Frame) : Node :=
  .elem f.name f.attrs (NodeL.ofList f.childrenRev.reverse)

def pushChild (n : Node) (f : Frame) : Frame :=
  { f with childrenRev := n :: f.childrenRev }

/-- Close the innermost frames down to and including the one named `nm`,
nesting each closed element into its parent. -/
def popTo (nm : String) : Frame → List Frame → List Node → List Frame × List Node
  | f, fs, topRev =>
    let n := closeFrame f
    if f.name == nm then
      match fs with
      | [] => ([], n :: topRev)
      | g :: gs => (pushChild n g :: gs, topRev)
    else
      match fs with
      | [] => ([], n :: topRev)
      | g :: gs => popTo nm (pushChild n g) gs topRev

/-- Close every frame left open at end of input (unclosed tags keep their
collected children). -/
def closeAll : Frame → List Frame → List Node → List Node
  | f, [], topRev => closeFrame f :: topRev
  | f, g :: gs, topRev => closeAll (pushChild (closeFrame f) g) gs topRev

def addNodeTo (n : Node) : List Frame → List Node → List Frame × List Node
  | [], topRev => ([], n :: topRev)
  | f :: fs, topRev => (pushChild n f :: fs, topRev)

/-- The tree builder: a stack of open frames plus the reversed list of
finished top-level nodes.  Unmatched closing tags are ignored. -/
def buildAux : List Tok → List Frame → List Node → List Node
  | [], [], topRev => topRev.reverse
  | [], f :: fs, topRev => (closeAll f fs topRev).reverse
  | .textT s :: ts, stack, topRev =>
    let st := addNodeTo (.text s) stack topRev
    buildAux ts st.1 st.2
  | .openT nm attrs sc :: ts, stack, topRev =>
    if sc || isVoidTag nm then
      let st := addNodeTo (.elem nm attrs .nil) stack topRev
      buildAux ts st.1 st.2
    else buildAux ts ({ name := nm, attrs := attrs, childrenRev := [] } :: stack) topRev
  | .closeT nm :: ts, stack, topRev =>
    if stack.any fun f => f.name == nm then
      match stack with
      | [] => buildAux ts stack topRev
      | f :: fs =>
        let st := popTo nm f fs topRev
        buildAux ts st.1 st.2
    else buildAux ts stack topRev

/-- `BeautifulSoup(html, 'html.parser')`: the document tree of the input. -/
def parseHTML (s : String) : NodeL := NodeL.ofList (buildAux (lexHTML s) [] [])

/-! ## The API layer (`import_content`, `get_latest_content`)

The outbound fetch (`requests.get`) is an external effect: we pass its
outcome in as `Except String FetchResponse` (network exception or a
response).  The document store lives in the repository's `database.py`,
which is not part of the sources; it is modelled from the specification. -/

structure ImportRequest where
  url : String
  language : Option String
deriving DecidableEq, Repr

structure FetchResponse where
  status_code : Nat
  text : String
deriving DecidableEq, Repr

/-- The persisted `SiteContent` record of `schemas.py` (§3 of the spec). -/
structure SiteContent where
  source_url : String
  language : Option String
  raw_html : Option String
  raw_text : Option String
  sections : List (String × List String)
  navigation : List NavItem
deriving DecidableEq, Repr

/-- An endpoint outcome: a payload, or an `HTTPException(status, detail)`. -/
inductive HTTPResult (α : Type) where
  | ok (value : α) : HTTPResult α
  | httpError (status : Nat) (detail : String) : HTTPResult α
deriving DecidableEq, Repr

/-- Modelled from the spec: `create_document` (in the repository's missing
`database.py`) persists one record per import, appending it to the store;
persistence may fail, which the `ok` flag selects. -/
def create_document (ok : Bool) (st : List SiteContent) (doc : SiteContent) :
    Except String (List SiteContent) :=
  if ok then .ok (st ++ [doc]) else .error "insert failed"

/-- Modelled from the spec: `get_documents` (missing `database.py`) returns
the `limit` most recently stored records, most recent first. -/
def get_documents (st : List SiteContent) (limit : Nat) : List SiteContent :=
  st.reverse.take limit

/-- `POST /api/import`: fetch the URL (outcome passed in), extract, build the
`SiteContent` record, store it, and return it.  The pair carries the HTTP
outcome and the store state after the call. -/
def import_content (req : ImportRequest) (fetch : Except String FetchResponse)
    (storeOk : Bool) (st : List SiteContent) :
    HTTPResult SiteContent × List SiteContent :=
  match fetch with
  | .error e => (.httpError 400 ("Failed to fetch URL: " ++ e), st)
  | .ok resp =>
    if resp.status_code ≠ 200 then
      (.httpError resp.status_code ("Upstream returned " ++ toString resp.status_code), st)
    else
      let extracted := extract_text_and_sections (parseHTML resp.text)
      let doc : SiteContent :=
        { source_url := req.url
          language := req.language
          raw_html := some resp.text
          raw_text := some extracted.raw_text
          sections := extracted.sections
          navigation := extracted.navigation }
      match create_document storeOk st doc with
      | .error e => (.httpError 500 ("Database error: " ++ e), st)
      | .ok stNew => (.ok doc, stNew)

/-- The per-record reconstruction in `get_latest_content`: a new
`SiteContent` is rebuilt field by field from the stored document. -/
def reconstructDoc (d : SiteContent) : SiteContent :=
  { source_url := d.source_url
    language := d.language
    raw_html := d.raw_html
    raw_text := d.raw_text
    sections := d.sections
    navigation := d.navigation }

/-- `GET /api/content?limit=N`; `readOk` selects whether the store read
raises (the `except` branch answers 500). -/
def get_latest_content (readOk : Bool) (limit : Nat) (st : List SiteContent) :
    HTTPResult (List SiteContent) :=
  if readOk then .ok ((get_documents st limit).map reconstructDoc)
  else .httpError 500 "Database error: read failed"

/-! ## Claims about the API layer -/

/-- C1: `extract_text_and_sections` is total: for every input string —
empty input, text with no tags, and malformed markup included — parsing and
extraction terminate and yield an `ExtractionResult` with its `raw_text`,
`sections` and `navigation` fields; no exception path exists. -/
theorem extract_total_on_all_inputs :
    (∀ html : String, ∃ rt sects nav,
      extract_text_and_sections (parseHTML html) =
        { raw_text := rt, sections := sects, navigation := nav }) ∧
    extract_text_and_sections (parseHTML "") =
      { raw_text := "", sections := [], navigation := [] } ∧
    extract_text_and_sections (parseHTML "just text, no tags") =
      { raw_text := "just text, no tags", sections := [], navigation := [] } ∧
    extract_text_and_sections (parseHTML "<div><p>unclosed <b>bold") =
      { raw_text := "unclosed\nbold", sections := [], navigation := [] } :=
  ⟨fun _ => ⟨_, _, _, rfl⟩, by decide, by decide, by decide⟩

/-- C2 counterexample: a 503 upstream response makes `import_content` answer
with status 503, not with the claimed 400. -/
theorem import_non200_counterexample :
    (import_content { url := "http://x", language := none }
        (.ok { status_code := 503, text := "" }) true []).1 =
      .httpError 503 "Upstream returned 503" ∧ (503 : Nat) ≠ 400 :=
  ⟨by simp only [import_content]; norm_num; rfl, by decide⟩

/-- C2 (amended): a network error on fetch yields status 400; a non-200
upstream response is answered with the upstream's own status code; a storage
failure after a successful fetch yields status 500. -/
theorem import_status_mapping :
    (∀ (req : ImportRequest) (e : String) (storeOk : Bool) (st : List SiteContent),
      (import_content req (.error e) storeOk st).1 =
        .httpError 400 ("Failed to fetch URL: " ++ e)) ∧
    (∀ (req : ImportRequest) (resp : FetchResponse) (storeOk : Bool)
        (st : List SiteContent), resp.status_code ≠ 200 →
      (import_content req (.ok resp) storeOk st).1 =
        .httpError resp.status_code ("Upstream returned " ++ toString resp.status_code)) ∧
    (∀ (req : ImportRequest) (resp : FetchResponse) (st : List SiteContent),
        resp.status_code = 200 →
      (import_content req (.ok resp) false st).1 =
        .httpError 500 "Database error: insert failed") := by
  refine ⟨fun req e storeOk st => rfl, fun req resp storeOk st h => ?_,
    fun req resp st h => ?_⟩
  · simp only [import_content, if_pos h]
  · simp [import_content, h, create_document]

/-- Witness for `import_status_mapping` at concrete inputs. -/
theorem import_status_mapping_witness :
    (import_content { url := "u", language := none }
        (.ok { status_code := 503, text := "" }) true []).1 =
      .httpError 503 ("Upstream returned " ++ toString 503) ∧
    (import_content { url := "u", language := none }
        (.ok { status_code := 200, text := "" }) false []).1 =
      .httpError 500 "Database error: insert failed" :=
  ⟨import_status_mapping.2.1 { url := "u", language := none }
      { status_code := 503, text := "" } true [] (by decide),
   import_status_mapping.2.2 { url := "u", language := none }
      { status_code := 200, text := "" } [] rfl⟩

/-- C3: a fetch that returns upstream status 404 makes `import_content`
answer with the 4xx error `Upstream returned 404` (its message references
"404"), and the store state is untouched, so no record is persisted. -/
theorem import_404_no_store (req : ImportRequest) (body : String)
    (storeOk : Bool) (st : List SiteContent) :
    import_content req (.ok { status_code := 404, text := body }) storeOk st =
      (.httpError 404 "Upstream returned 404", st) ∧
    400 ≤ 404 ∧ 404 < 500 ∧ hasSub "404" "Upstream returned 404" = true := by
  refine ⟨?_, by decide, by decide, by decide⟩
  simp only [import_content]
  norm_num
  rfl

/-- C9: round-trip — after a successful import, `get_latest_content` with the
default limit 1 serves exactly the record the import returned, with
`source_url`, `language`, `raw_html`, `raw_text`, `sections` and
`navigation` all preserved. -/
theorem import_roundtrip (req : ImportRequest) (resp : FetchResponse)
    (st : List SiteContent) (h : resp.status_code = 200) :
    ∃ doc : SiteContent,
      (import_content req (.ok resp) true st).1 = .ok doc ∧
      get_latest_content true 1 (import_content req (.ok resp) true st).2 =
        .ok [doc] ∧
      doc.source_url = req.url ∧ doc.language = req.language ∧
      doc.raw_html = some resp.text ∧
      doc.raw_text = some (extract_text_and_sections (parseHTML resp.text)).raw_text ∧
      doc.sections = (extract_text_and_sections (parseHTML resp.text)).sections ∧
      doc.navigation = (extract_text_and_sections (parseHTML resp.text)).navigation := by
  refine ⟨{ source_url := req.url
            language := req.language
            raw_html := some resp.text
            raw_text := some (extract_text_and_sections (parseHTML resp.text)).raw_text
            sections := (extract_text_and_sections (parseHTML resp.text)).sections
            navigation := (extract_text_and_sections (parseHTML resp.text)).navigation },
    ?_, ?_, rfl, rfl, rfl, rfl, rfl, rfl⟩
  · simp [import_content, h, create_document]
  · simp [import_content, h, create_document, get_latest_content, get_documents,
      reconstructDoc]

/-- Witness for `import_roundtrip` at a concrete request. -/
theorem import_roundtrip_witness :
    ∃ doc : SiteContent,
      (import_content { url := "u", language := none }
          (.ok { status_code := 200, text := "hi" }) true []).1 = .ok doc ∧
      get_latest_content true 1
          (import_content { url := "u", language := none }
            (.ok { status_code := 200, text := "hi" }) true []).2 = .ok [doc] ∧
      doc.source_url = "u" ∧ doc.language = none ∧
      doc.raw_html = some "hi" ∧
      doc.raw_text = some (extract_text_and_sections (parseHTML "hi")).raw_text ∧
      doc.sections = (extract_text_and_sections (parseHTML "hi")).sections ∧
      doc.navigation = (extract_text_and_sections (parseHTML "hi")).navigation :=
  import_roundtrip { url := "u", language := none }
    { status_code := 200, text := "hi" } [] rfl

/-! ## Tree lemmas -/

/-- Mutual induction over `Node` and `NodeL`. -/
theorem nodeMutualInd {P : Node → Prop} {Q : NodeL → Prop}
    (htext : ∀ s, P (.text s))
    (helem : ∀ t a cs, Q cs → P (.elem t a cs))
    (hnil : Q .nil)
    (hcons : ∀ n l, P n → Q l → Q (.cons n l)) :
    (∀ n, P n) ∧ (∀ l, Q l) :=
  ⟨fun n => Node.rec htext helem hnil hcons n,
   fun l => NodeL.rec htext helem hnil hcons l⟩

theorem nodeIsStripped_stripNodeKeep (n : Node) :
    nodeIsStripped (stripNodeKeep n) = nodeIsStripped n := by
  cases n <;> rfl

/-- Removing `script`/`style`/`noscript` elements is idempotent. -/
theorem stripForest_idem : ∀ l : NodeL, stripForest (stripForest l) = stripForest l := by
  have h := nodeMutualInd
    (P := fun n => stripNodeKeep (stripNodeKeep n) = stripNodeKeep n)
    (Q := fun l => stripForest (stripForest l) = stripForest l)
    (fun s => rfl)
    (fun t a cs ih => by simp only [stripNodeKeep, ih])
    rfl
    (fun n l ihn ihl => by
      by_cases hs : nodeIsStripped n = true
      · simp [stripForest, hs, ihl]
      · simp [stripForest, hs, nodeIsStripped_stripNodeKeep, ihn, ihl])
  exact h.2

/-- C6: the content of `script`, `style` and `noscript` elements influences
no output field — extraction factors through the tree with those subtrees
removed — and on `<script>evil()</script>Hello` the raw text contains
"Hello" but not "evil". -/
theorem script_content_never_in_output :
    (∀ doc : NodeL,
      extract_text_and_sections doc = extract_text_and_sections (stripForest doc)) ∧
    hasSub "evil"
      (extract_text_and_sections (parseHTML "<script>evil()</script>Hello")).raw_text = false ∧
    hasSub "Hello"
      (extract_text_and_sections (parseHTML "<script>evil()</script>Hello")).raw_text = true := by
  refine ⟨fun doc => ?_, by decide, by decide⟩
  unfold extract_text_and_sections
  rw [stripForest_idem doc]

theorem sectionsOf_lookup_hero (soup : NodeL) :
    (sectionsOf soup).lookup "hero" = heroOf soup := by
  cases h : heroOf soup <;>
    simp only [sectionsOf, h] <;>
    by_cases h1 : servicesOf soup ≠ [] <;>
    by_cases h2 : testimonialsRaw soup ≠ [] <;>
    by_cases h3 : contactOf soup ≠ [] <;>
    simp [h1, h2, h3, List.lookup]

theorem sectionsOf_lookup_services (soup : NodeL) :
    (sectionsOf soup).lookup "services" =
      if servicesOf soup ≠ [] then some (servicesOf soup) else none := by
  cases h : heroOf soup <;>
    simp only [sectionsOf, h] <;>
    by_cases h1 : servicesOf soup ≠ [] <;>
    by_cases h2 : testimonialsRaw soup ≠ [] <;>
    by_cases h3 : contactOf soup ≠ [] <;>
    simp [h1, h2, h3, List.lookup]

theorem sectionsOf_lookup_testimonials (soup : NodeL) :
    (sectionsOf soup).lookup "testimonials" =
      if testimonialsRaw soup ≠ [] then some ((testimonialsRaw soup).take 10) else none := by
  cases h : heroOf soup <;>
    simp only [sectionsOf, h] <;>
    by_cases h1 : servicesOf soup ≠ [] <;>
    by_cases h2 : testimonialsRaw soup ≠ [] <;>
    by_cases h3 : contactOf soup ≠ [] <;>
    simp [h1, h2, h3, List.lookup]

theorem sectionsOf_lookup_contact (soup : NodeL) :
    (sectionsOf soup).lookup "contact" =
      if contactOf soup ≠ [] then some (contactOf soup) else none := by
  cases h : heroOf soup <;>
    simp only [sectionsOf, h] <;>
    by_cases h1 : servicesOf soup ≠ [] <;>
    by_cases h2 : testimonialsRaw soup ≠ [] <;>
    by_cases h3 : contactOf soup ≠ [] <;>
    simp [h1, h2, h3, List.lookup]

/-- A guarded `filterMap` of texts is the map of texts filtered by
non-emptiness (the loop `t = get_text(...); if t: append(t)`). -/
theorem filterMap_textIf {α : Type} (f : α → String) (l : List α) :
    (l.filterMap fun x => if f x ≠ "" then some (f x) else none) =
      (l.map f).filter fun t => t ≠ "" := by
  induction l with
  | nil => rfl
  | cons x xs ih =>
    by_cases h : f x ≠ ""
    · rw [List.filterMap_cons, if_pos h, List.map_cons, List.filter_cons,
        if_pos (decide_eq_true h), ih]
    · rw [List.filterMap_cons, if_neg h, List.map_cons, List.filter_cons,
        if_neg (by simpa using h), ih]

theorem heroOf_some_ne_nil {soup : NodeL} {v : List String}
    (h : heroOf soup = some v) : v ≠ [] := by
  unfold heroOf at h
  cases hf : findForestF (isTag "h1") soup <;> rw [hf] at h
  · cases h
  · rw [Option.map_some'] at h
    cases h
    simp

/-- C5: the hero entry of `sections` is present exactly when an `h1` exists,
and is then the first `h1`'s trimmed text followed by the non-empty trimmed
texts of up to its next 3 sibling elements; on the spec's example it is
`["A", "B", "C", "D"]`. -/
theorem hero_section_rule :
    (∀ doc : NodeL,
      (extract_text_and_sections doc).sections.lookup "hero" =
        (findForestF (isTag "h1") (stripForest doc)).map fun fs =>
          getTextN " " fs.1 ::
            ((nextSiblings 3 fs.2).map (getTextN " ")).filter (fun t => t ≠ "")) ∧
    ((extract_text_and_sections
        (parseHTML "<h1>A</h1><p>B</p><p>C</p><p>D</p><p>E</p>")).sections.lookup "hero")
      = some ["A", "B", "C", "D"] := by
  refine ⟨fun doc => ?_, by decide⟩
  show (sectionsOf (stripForest doc)).lookup "hero" = _
  rw [sectionsOf_lookup_hero]
  unfold heroOf
  cases findForestF (isTag "h1") (stripForest doc) with
  | none => rfl
  | some fs =>
    rw [Option.map_some', Option.map_some']
    show some (_ :: List.filterMap _ _) = _
    rw [filterMap_textIf (getTextN " ") (nextSiblings 3 fs.2)]

/-- C8: every key of `sections` is one of the four fixed categories and
carries a non-empty value, and each key is present exactly when its
heuristic detected content (absent keys mean "not detected"). -/
theorem sections_keys_rule (doc : NodeL) :
    (∀ kv ∈ (extract_text_and_sections doc).sections,
      kv.1 ∈ (["hero", "services", "testimonials", "contact"] : List String) ∧
      kv.2 ≠ []) ∧
    (((extract_text_and_sections doc).sections.lookup "hero").isSome ↔
      (findForestF (isTag "h1") (stripForest doc)).isSome) ∧
    (((extract_text_and_sections doc).sections.lookup "services").isSome ↔
      servicesOf (stripForest doc) ≠ []) ∧
    (((extract_text_and_sections doc).sections.lookup "testimonials").isSome ↔
      testimonialsRaw (stripForest doc) ≠ []) ∧
    (((extract_text_and_sections doc).sections.lookup "contact").isSome ↔
      contactOf (stripForest doc) ≠ []) := by
  have hsect : (extract_text_and_sections doc).sections = sectionsOf (stripForest doc) := rfl
  refine ⟨?_, ?_, ?_, ?_, ?_⟩
  · intro kv hkv
    rw [hsect] at hkv
    unfold sectionsOf at hkv
    rcases List.mem_append.1 hkv with hkv | hc
    · rcases List.mem_append.1 hkv with hkv | ht
      · rcases List.mem_append.1 hkv with hh | hs
        · cases hm : heroOf (stripForest doc) <;> rw [hm] at hh
          · cases hh
          · have hkveq := List.mem_singleton.1 hh
            subst hkveq
            exact ⟨by simp, heroOf_some_ne_nil hm⟩
        · by_cases hcond : servicesOf (stripForest doc) ≠ []
          · rw [if_pos hcond] at hs
            have hkveq := List.mem_singleton.1 hs
            subst hkveq
            exact ⟨by simp, hcond⟩
          · rw [if_neg hcond] at hs
            cases hs
      · by_cases hcond : testimonialsRaw (stripForest doc) ≠ []
        · rw [if_pos hcond] at ht
          have hkveq := List.mem_singleton.1 ht
          subst hkveq
          refine ⟨by simp, ?_⟩
          cases hl : testimonialsRaw (stripForest doc) with
          | nil => exact absurd hl hcond
          | cons a t => simp
        · rw [if_neg hcond] at ht
          cases ht
    · by_cases hcond : contactOf (stripForest doc) ≠ []
      · rw [if_pos hcond] at hc
        have hkveq := List.mem_singleton.1 hc
        subst hkveq
        exact ⟨by simp, hcond⟩
      · rw [if_neg hcond] at hc
        cases hc
  · rw [hsect, sectionsOf_lookup_hero]
    unfold heroOf
    cases findForestF (isTag "h1") (stripForest doc) <;> simp
  · rw [hsect, sectionsOf_lookup_services]
    by_cases h : servicesOf (stripForest doc) ≠ [] <;> simp [h]
  · rw [hsect, sectionsOf_lookup_testimonials]
    by_cases h : testimonialsRaw (stripForest doc) ≠ [] <;> simp [h]
  · rw [hsect, sectionsOf_lookup_contact]
    by_cases h : contactOf (stripForest doc) ≠ [] <;> simp [h]

/-- Witness for `sections_keys_rule`: the hero entry of a concrete document. -/
theorem sections_keys_rule_witness :
    (("hero", ["A"]) : String × List String).1 ∈
      (["hero", "services", "testimonials", "contact"] : List String) ∧
    (("hero", ["A"]) : String × List String).2 ≠ [] :=
  (sections_keys_rule (parseHTML "<h1>A</h1>")).1 ("hero", ["A"]) (by decide)

/-! ## Navigation claims -/

mutual
/-- The navigation list as the amended specification words it: walking the
document in order, every `a` element below a `nav` that has an `href`
attribute and a non-empty trimmed label contributes `{label, href}`;
anchors without `href` are omitted; no deduplication. -/
def navSpecNode : Bool → Node → List NavItem
  | _, .text _ => []
  | inNav, .elem t a cs =>
    (if t == "a" && inNav && (attrsGet a "href").isSome && getTextF "" cs ≠ "" then
      [{ label := getTextF "" cs, href := attrsGet a "href" }]
    else [])
      ++ navSpecForest (inNav || t == "nav") cs

/-- `navSpecNode` over a forest. -/
def navSpecForest : Bool → NodeL → List NavItem
  | _, .nil => []
  | inNav, .cons n rest => navSpecNode inNav n ++ navSpecForest inNav rest
end

mutual
/-- The navigation list as claim C4 words it: every `a` element below a
`nav` with a non-empty trimmed label contributes an entry even when `href`
is absent (then with a null `href`). -/
def navClaimNode : Bool → Node → List NavItem
  | _, .text _ => []
  | inNav, .elem t a cs =>
    (if t == "a" && inNav && getTextF "" cs ≠ "" then
      [{ label := getTextF "" cs, href := attrsGet a "href" }]
    else [])
      ++ navClaimForest (inNav || t == "nav") cs

/-- `navClaimNode` over a forest. -/
def navClaimForest : Bool → NodeL → List NavItem
  | _, .nil => []
  | inNav, .cons n rest => navClaimNode inNav n ++ navClaimForest inNav rest
end

/-- The select-then-filter loop of `main.py` equals a one-pass
specification reading of navigation. -/
theorem navigationOf_eq_navSpec :
    ∀ l : NodeL, ∀ b : Bool,
      ((navAForest b l).filterMap fun a =>
        if getTextN "" a ≠ "" then
          some { label := getTextN "" a,
                 href := match a with
                         | .text _ => none
                         | .elem _ attrs _ => attrsGet attrs "href" }
        else none) = navSpecForest b l := by
  have h := nodeMutualInd
    (P := fun n => ∀ b : Bool,
      ((navANode b n).filterMap fun a =>
        if getTextN "" a ≠ "" then
          some { label := getTextN "" a,
                 href := match a with
                         | .text _ => none
                         | .elem _ attrs _ => attrsGet attrs "href" }
        else none) = navSpecNode b n)
    (Q := fun l => ∀ b : Bool,
      ((navAForest b l).filterMap fun a =>
        if getTextN "" a ≠ "" then
          some { label := getTextN "" a,
                 href := match a with
                         | .text _ => none
                         | .elem _ attrs _ => attrsGet attrs "href" }
        else none) = navSpecForest b l)
    (fun s b => rfl)
    (fun t a cs ih b => by
      simp only [navANode, navSpecNode, List.filterMap_append, ih]
      congr 1
      have hlab : getTextN "" (Node.elem t a cs) = getTextF "" cs := rfl
      by_cases h1 : (t == "a" && b && (attrsGet a "href").isSome) = true
      · rw [if_pos h1]
        by_cases h2 : getTextF "" cs ≠ ""
        · rw [if_pos (by simp [h1, h2]), List.filterMap_cons, hlab, if_pos h2]
          rfl
        · have h2eq : getTextF "" cs = "" := not_ne_iff.mp h2
          rw [if_neg (by simp [h2eq]), List.filterMap_cons, hlab, if_neg h2]
          rfl
      · rw [if_neg h1,
          if_neg (fun hcon => h1 (by simp only [Bool.and_eq_true] at hcon ⊢; exact hcon.1)),
          List.filterMap_nil])
    (fun b => rfl)
    (fun n l ihn ihl b => by
      simp only [navAForest, navSpecForest, List.filterMap_append, ihn, ihl])
  exact fun l b => h.2 l b

/-- C4 counterexample: `<nav><a>Home</a></nav>` has a nav anchor with the
non-empty label "Home" and no `href`; the claim demands the navigation entry
`{label: "Home", href: null}`, but extraction emits no entry at all. -/
theorem nav_hrefless_counterexample :
    navClaimForest false (stripForest (parseHTML "<nav><a>Home</a></nav>")) =
      [{ label := "Home", href := none }] ∧
    (extract_text_and_sections (parseHTML "<nav><a>Home</a></nav>")).navigation = [] :=
  ⟨by decide, by decide⟩

/-- C4 (amended): navigation holds one `{label, href}` entry for every
anchor that is a descendant of a `nav` element, carries an `href` attribute
and has a non-empty trimmed label, in document order with no deduplication;
anchors without `href` are omitted. -/
theorem navigation_rule :
    (∀ doc : NodeL, (extract_text_and_sections doc).navigation =
        navSpecForest false (stripForest doc)) ∧
    (extract_text_and_sections (parseHTML "<nav><a href=\"/x\">Home</a></nav>")).navigation =
      [{ label := "Home", href := some "/x" }] :=
  ⟨fun doc => navigationOf_eq_navSpec (stripForest doc) false, by decide⟩

/-- Every node selected by `nav a[href]` is an `a` element carrying `href`. -/
theorem navA_selected_shape :
    ∀ l : NodeL, ∀ b : Bool, ∀ nd ∈ navAForest b l,
      ∃ t attrs cs, nd = Node.elem t attrs cs ∧ (t == "a") = true ∧
        (attrsGet attrs "href").isSome = true := by
  have h := nodeMutualInd
    (P := fun n => ∀ b : Bool, ∀ nd ∈ navANode b n,
      ∃ t attrs cs, nd = Node.elem t attrs cs ∧ (t == "a") = true ∧
        (attrsGet attrs "href").isSome = true)
    (Q := fun l => ∀ b : Bool, ∀ nd ∈ navAForest b l,
      ∃ t attrs cs, nd = Node.elem t attrs cs ∧ (t == "a") = true ∧
        (attrsGet attrs "href").isSome = true)
    (fun s b nd hnd => absurd hnd (by simp [navANode]))
    (fun t a cs ih b nd hnd => by
      simp only [navANode] at hnd
      rcases List.mem_append.1 hnd with hh | hrest
      · by_cases hcond : (t == "a" && b && (attrsGet a "href").isSome) = true
        · rw [if_pos hcond] at hh
          rcases List.mem_singleton.1 hh with rfl
          simp only [Bool.and_eq_true] at hcond
          exact ⟨t, a, cs, rfl, hcond.1.1, hcond.2⟩
        · rw [if_neg hcond] at hh
          cases hh
      · exact ih _ nd hrest)
    (fun b nd hnd => absurd hnd (by simp [navAForest]))
    (fun n l ihn ihl b nd hnd => by
      rcases List.mem_append.1 (by simpa [navAForest] using hnd) with h1 | h2
      · exact ihn b nd h1
      · exact ihl b nd h2)
  exact h.2

/-- C10: every navigation entry has a non-null `href` and a non-empty
label; anchors inside `nav` lacking `href` are omitted entirely. -/
theorem navigation_entries_total :
    ∀ (doc : NodeL) (item : NavItem),
      item ∈ (extract_text_and_sections doc).navigation →
      item.href.isSome = true ∧ item.label ≠ "" := by
  intro doc item hmem
  have hm : item ∈ navigationOf (stripForest doc) := hmem
  unfold navigationOf at hm
  rcases List.mem_filterMap.1 hm with ⟨a, ha, hmk⟩
  obtain ⟨t, attrs, cs, rfl, hta, hhref⟩ :=
    navA_selected_shape (stripForest doc) false a ha
  dsimp only [] at hmk
  by_cases ht : getTextN "" (Node.elem t attrs cs) ≠ ""
  · rw [if_pos ht] at hmk
    injection hmk with hmk
    subst hmk
    exact ⟨hhref, ht⟩
  · rw [if_neg ht] at hmk
    cases hmk

/-- Witness for `navigation_entries_total` on a concrete document. -/
theorem navigation_entries_total_witness :
    ({ label := "Home", href := some "/x" } : NavItem).href.isSome = true ∧
    ({ label := "Home", href := some "/x" } : NavItem).label ≠ "" :=
  navigation_entries_total (parseHTML "<nav><a href=\"/x\">Home</a></nav>")
    { label := "Home", href := some "/x" } (by decide)

/-! ## Testimonials claim -/

/-- First-occurrence deduplication, as the specification words it: walk the
candidates, appending each block not seen before. -/
def dedupFirst : List String → List String → List String
  | acc, [] => acc
  | acc, x :: xs =>
    if x ∈ acc then dedupFirst acc xs else dedupFirst (acc ++ [x]) xs

theorem dedupFirst_cons (acc : List String) (x : String) (xs : List String) :
    dedupFirst acc (x :: xs) =
      if x ∈ acc then dedupFirst acc xs else dedupFirst (acc ++ [x]) xs := rfl

/-- The testimonial candidate blocks as the specification words them: the
parent texts of the text nodes whose lowercased stripped value contains a
testimonial keyword, in document order. -/
def testimonialCandidates (soup : NodeL) : List String :=
  (topTextEntries soup).filterMap fun e =>
    if kwAny ["отзывы", "testimonial", "feedback", "клиенты о нас"]
        (pyLower (pyStrip e.1)) then some e.2
    else none

theorem strAppendNeLeft {x : String} (y : String) (h : x ≠ "") : x ++ y ≠ "" := by
  intro hcon
  apply h
  apply String.ext
  have hd := congrArg String.data hcon
  rw [String.data_append] at hd
  exact (List.append_eq_nil.1 hd).1

/-- `sepJoin` of a list headed by a non-empty string is non-empty. -/
theorem sepJoin_ne_empty (sep x : String) (l : List String) (h : x ≠ "") :
    sepJoin sep (x :: l) ≠ "" := by
  cases l with
  | nil => exact h
  | cons y t => exact strAppendNeLeft _ (strAppendNeLeft _ h)

/-- A forest among whose fragments is a string that survives stripping has
non-empty `get_text(" ", strip=True)`. -/
theorem getTextF_ne_empty {s : String} {l : NodeL}
    (hs : s ∈ forestStrings l) (hne : pyStrip s ≠ "") : getTextF " " l ≠ "" := by
  have hmem : pyStrip s ∈ cleanFrags (forestStrings l) := by
    unfold cleanFrags
    exact List.mem_filter.2 ⟨List.mem_map_of_mem pyStrip hs, by simpa using hne⟩
  unfold getTextF
  cases hc : cleanFrags (forestStrings l) with
  | nil => rw [hc] at hmem; cases hmem
  | cons x t =>
    have hx : x ≠ "" := by
      have hxm : x ∈ cleanFrags (forestStrings l) := by
        rw [hc]; exact List.mem_cons_self x t
      unfold cleanFrags at hxm
      simpa using (List.mem_filter.1 hxm).2
    exact sepJoin_ne_empty " " x t hx

/-- The parent text paired with any text node that survives stripping is
itself non-empty (the parent's text contains that fragment). -/
theorem textEntries_parent_ne_empty :
    ∀ doc : NodeL, ∀ e ∈ topTextEntries doc, pyStrip e.1 ≠ "" → e.2 ≠ "" := by
  have h := nodeMutualInd
    (P := fun n => ∀ e ∈ nodeTextEntries n, pyStrip e.1 ≠ "" → e.2 ≠ "")
    (Q := fun l => ∀ ptext : String, ∀ e ∈ forestTextEntries ptext l,
      pyStrip e.1 ≠ "" → e.2 ≠ "" ∨ (e.2 = ptext ∧ e.1 ∈ forestStrings l))
    (fun s e he => absurd he (by simp [nodeTextEntries]))
    (fun t a cs ih e he hne => by
      simp only [nodeTextEntries] at he
      rcases ih (getTextF " " cs) e he hne with h1 | ⟨h2, h3⟩
      · exact h1
      · rw [h2]
        exact getTextF_ne_empty h3 hne)
    (fun ptext e he => absurd he (by simp [forestTextEntries]))
    (fun n l ihn ihl ptext e he hne => by
      simp only [forestTextEntries] at he
      rcases List.mem_append.1 he with hh | ht
      · cases n with
        | text s =>
          have he2 := List.mem_singleton.1 hh
          subst he2
          exact Or.inr ⟨rfl, by simp [forestStrings, nodeStrings]⟩
        | elem t a cs => exact Or.inl (ihn e hh hne)
      · rcases ihl ptext e ht hne with h1 | ⟨h2, h3⟩
        · exact Or.inl h1
        · refine Or.inr ⟨h2, ?_⟩
          simp only [forestStrings]
          exact List.mem_append.2 (Or.inr h3))
  intro doc e he hne
  rcases h.2 doc (getTextF " " doc) e he hne with h1 | ⟨h2, h3⟩
  · exact h1
  · rw [h2]
    exact getTextF_ne_empty h3 hne

/-- The testimonials fold is first-seen deduplication of the
keyword-matching candidate blocks. -/
theorem foldl_testimonialStep :
    ∀ (entries : List (String × String)) (acc : List String),
      (∀ e ∈ entries, pyStrip e.1 ≠ "" → e.2 ≠ "") →
      entries.foldl testimonialStep acc =
        dedupFirst acc (entries.filterMap fun e =>
          if kwAny ["отзывы", "testimonial", "feedback", "клиенты о нас"]
              (pyLower (pyStrip e.1)) then some e.2 else none) := by
  intro entries
  induction entries with
  | nil => intro acc _; rfl
  | cons e rest ih =>
    intro acc hinv
    have htail : ∀ e2 ∈ rest, pyStrip e2.1 ≠ "" → e2.2 ≠ "" :=
      fun e2 he2 => hinv e2 (List.mem_cons_of_mem e he2)
    rw [List.foldl_cons, List.filterMap_cons]
    by_cases hkw : kwAny ["отзывы", "testimonial", "feedback", "клиенты о нас"]
        (pyLower (pyStrip e.1)) = true
    · rw [if_pos hkw]
      have hlow : pyLower (pyStrip e.1) ≠ "" := by
        intro h0
        rw [h0] at hkw
        exact absurd hkw (by decide)
      have hstrip : pyStrip e.1 ≠ "" := by
        intro h0
        apply hlow
        rw [h0]
        rfl
      have hp : e.2 ≠ "" := hinv e (List.mem_cons_self e rest) hstrip
      have hstep : testimonialStep acc e = if e.2 ∈ acc then acc else acc ++ [e.2] := by
        simp only [testimonialStep]
        rw [if_pos ⟨hlow, hkw⟩]
        by_cases hc : e.2 ∈ acc
        · rw [if_neg (fun hcon => hcon.2 hc), if_pos hc]
        · rw [if_pos ⟨hp, hc⟩, if_neg hc]
      rw [hstep]
      by_cases hc : e.2 ∈ acc
      · rw [if_pos hc, ih acc htail, dedupFirst_cons, if_pos hc]
      · rw [if_neg hc, ih (acc ++ [e.2]) htail, dedupFirst_cons, if_neg hc]
    · rw [if_neg hkw]
      have hstep : testimonialStep acc e = acc := by
        simp only [testimonialStep]
        rw [if_neg (fun hcon => hkw hcon.2)]
      rw [hstep]
      exact ih acc htail

/-- The raw testimonial list of `main.py` equals deduplicated candidates. -/
theorem testimonialsRaw_eq_dedup (soup : NodeL) :
    testimonialsRaw soup = dedupFirst [] (testimonialCandidates soup) := by
  unfold testimonialsRaw testimonialCandidates
  exact foldl_testimonialStep (topTextEntries soup) []
    (textEntries_parent_ne_empty soup)

theorem dedupFirst_acc_ne_nil :
    ∀ (l acc : List String), acc ≠ [] → dedupFirst acc l ≠ []
  | [], _, h => h
  | x :: xs, acc, h => by
    rw [dedupFirst_cons]
    by_cases hc : x ∈ acc
    · rw [if_pos hc]
      exact dedupFirst_acc_ne_nil xs acc h
    · rw [if_neg hc]
      exact dedupFirst_acc_ne_nil xs (acc ++ [x]) (by simp)

theorem dedupFirst_nil_eq_nil_iff (l : List String) :
    dedupFirst [] l = [] ↔ l = [] := by
  cases l with
  | nil => simp [dedupFirst]
  | cons x xs =>
    constructor
    · intro h
      exfalso
      apply dedupFirst_acc_ne_nil xs [x] (by simp)
      have hrw : dedupFirst [] (x :: xs) = dedupFirst [x] xs := by
        rw [dedupFirst_cons, if_neg (List.not_mem_nil x)]
        rfl
      rw [hrw] at h
      exact h
    · intro h
      cases h

/-- C7: the testimonials section is the parent texts of keyword-matching
text nodes, deduplicated by exact equality preserving first-seen order and
capped at the first 10 unique blocks; two identical matching blocks yield
one entry. -/
theorem testimonials_rule :
    (∀ doc : NodeL,
      (extract_text_and_sections doc).sections.lookup "testimonials" =
        if testimonialCandidates (stripForest doc) ≠ [] then
          some ((dedupFirst [] (testimonialCandidates (stripForest doc))).take 10)
        else none) ∧
    (extract_text_and_sections (parseHTML
        "<div><p>Отзывы: great service</p><p>Отзывы: great service</p></div>")).sections.lookup
      "testimonials" = some ["Отзывы: great service"] := by
  refine ⟨fun doc => ?_, by decide⟩
  show (sectionsOf (stripForest doc)).lookup "testimonials" = _
  rw [sectionsOf_lookup_testimonials, testimonialsRaw_eq_dedup]
  by_cases hc : testimonialCandidates (stripForest doc) = []
  · rw [if_neg (by simp [hc, dedupFirst]), if_neg (by simp [hc])]
  · rw [if_pos (fun h0 => hc ((dedupFirst_nil_eq_nil_iff _).1 h0)), if_pos hc]
